import Mathlib

/-!
Verification of the eino agent-framework core against its natural-language
specification.  The Go sources under scrutiny are embedded shallowly:

* messages, agent events and the deterministic-transfer wrapper
  (adk/deterministic_transfer.go);
* the agent-as-tool chat-history synthesis (pinned by adk/agent_tool_test.go);
* the filesystem middleware read tool (filesystem middleware source);
* the large-tool-result offloading middleware
  (adk/middlewares/reduction/large_tool_result.go);
* the graph execution engine with checkpoints, interrupts and hierarchical
  interrupt addresses.  The engine implementation itself is not part of the
  sampled sources (only its test suite is), so it is modelled from the spec,
  with every observable pinned by the test assertions of the compose test file.

Machine integers do not overflow in any of the embedded code paths (all counts
are small), so Go ints are modelled as Nat or Int as appropriate.
-/

namespace Eino

/-! ## Messages (schema package)

Only the fields the verified code reads are carried: role, content, the tool
calls of an assistant message (function name and arguments), and the tool
name / tool call id of a tool message. -/

inductive RoleType where
  | user
  | assistant
  | tool
  | system
deriving DecidableEq, Repr

structure FunctionCall where
  name : String
  arguments : String
deriving DecidableEq, Repr

structure Message where
  role : RoleType
  content : String
  toolCalls : List FunctionCall
  toolCallID : String
  toolName : String
deriving DecidableEq, Repr

/-- Builds a user message, as schema.UserMessage does. -/
def UserMessage (content : String) : Message :=
  { role := .user, content := content, toolCalls := [], toolCallID := "", toolName := "" }

/-- Builds an assistant message, as schema.AssistantMessage does. -/
def AssistantMessage (content : String) (toolCalls : List FunctionCall) : Message :=
  { role := .assistant, content := content, toolCalls := toolCalls,
    toolCallID := "", toolName := "" }

/-- Builds a tool message, as schema.ToolMessage with schema.WithToolName does. -/
def ToolMessage (content : String) (toolCallID : String) (toolName : String) : Message :=
  { role := .tool, content := content, toolCalls := [], toolCallID := toolCallID,
    toolName := toolName }

/-! ## Filesystem middleware: the read_file tool (newReadFileTool)

The tool closure clamps its arguments before forwarding them to Backend.Read:
a negative Offset becomes 0 and a non-positive Limit becomes 200. -/

structure readFileArgs where
  filePath : String
  offset : Int
  limit : Int
deriving DecidableEq, Repr

structure ReadRequest where
  filePath : String
  offset : Int
  limit : Int
deriving DecidableEq, Repr

/-- Request handed to Backend.Read by the read_file tool of the filesystem
middleware, after the clamping performed in newReadFileTool. -/
def readFileToolRequest (input : readFileArgs) : ReadRequest :=
  let offset := if input.offset < 0 then 0 else input.offset
  let limit := if input.limit ≤ 0 then 200 else input.limit
  { filePath := input.filePath, offset := offset, limit := limit }

/-! ## Reduction middleware: large tool result offloading
(adk/middlewares/reduction/large_tool_result.go) -/

structure ToolInput where
  name : String
  callID : String
  arguments : String
deriving DecidableEq, Repr

/-- Splits a character list at every newline, keeping empty segments. -/
def splitNl : List Char → List (List Char)
  | [] => [[]]
  | c :: rest =>
    if c = '\n' then [] :: splitNl rest
    else
      match splitNl rest with
      | [] => [[c]]
      | h :: t => (c :: h) :: t

/-- Drops a terminal carriage return, as bufio.ScanLines does per token. -/
def dropCR (l : List Char) : List Char :=
  if l.getLast? = some '\r' then l.dropLast else l

/-- UTF-8 byte length of a buffered line (Go strings are byte strings). -/
def lineBytes (l : List Char) : Nat :=
  (l.map Char.utf8Size).sum

/-- Maximum token size of a default bufio.Scanner (bufio.MaxScanTokenSize):
a line this many bytes or longer never fits a full buffer together with its
newline, so Scan fails with ErrTooLong. -/
def maxScanTokenSize : Nat := 65536

/-- Model of the bufio.Scanner loop in formatToolMessage with ScanLines
splitting and the default buffer cap: tokens are the newline-separated lines,
without a trailing empty token for a trailing newline and with a terminal
carriage return dropped from each token, but scanning stops unrecoverably at
the first line whose byte length reaches the maximum token size (the
ErrTooLong this raises is ignored by the caller).  Empty input yields no
tokens. -/
def scanLines (s : String) : List String :=
  if s.data = [] then []
  else
    let parts := splitNl s.data
    let parts := if s.data.getLast? = some '\n' then parts.dropLast else parts
    let parts := parts.takeWhile (fun l => lineBytes l < maxScanTokenSize)
    parts.map (fun l => (dropCR l).asString)

/-- Truncates a line to its first 1000 runes, as formatToolMessage does. -/
def truncLine (line : String) : String :=
  if line.toList.length > 1000 then (line.toList.take 1000).asString else line

/-- Lines used by formatToolMessage: the first ten scanned lines (the scan
stops early at a line of 64 KB or more), each truncated to 1000 runes. -/
def sampleLines (s : String) : List String :=
  ((scanLines s).take 10).map truncLine

/-- Rendering of formatToolMessage: each sampled line is printed with a
1-based line number. -/
def formatToolMessage (s : String) : String :=
  String.join ((sampleLines s).enum.map
    (fun p => toString (p.1 + 1) ++ ": " ++ p.2 ++ "\n"))

/-- Rendering of the tooLargeToolMessage template under pyfmt.Fmt with the
four bindings handleResult supplies. -/
def tooLargeToolMessageRendered (toolCallID filePath readFileToolName contentSample : String) :
    String :=
  "Tool result too large, the result of this tool call " ++ toolCallID ++
    " was saved in the filesystem at this path: " ++ filePath ++
    "\nYou can read the result from the filesystem by using the '" ++ readFileToolName ++
    "' tool, but make sure to only read part of the result at a time.\n" ++
    "You can do this by specifying an offset and limit in the '" ++ readFileToolName ++
    "' tool call.\n" ++
    "For example, to read the first 100 lines, you can use the '" ++ readFileToolName ++
    "' tool with offset=0 and limit=100.\n\n" ++
    "Here are the first 10 lines of the result:\n" ++ contentSample

structure WriteRequest where
  filePath : String
  content : String
deriving DecidableEq, Repr

/-- Configuration of toolResultOffloading after the defaulting performed by
newToolResultOffloading.  The token counter stays a function parameter, as in
the source struct. -/
structure toolResultOffloading where
  tokenLimit : Nat
  pathGenerator : ToolInput → String
  toolName : String
  counter : Message → Nat

/-- Input configuration of newToolResultOffloading; a zero TokenLimit, empty
tool name and absent generator select the defaults. -/
structure toolResultOffloadingConfig where
  tokenLimit : Nat
  pathGenerator : Option (ToolInput → String)
  readFileToolName : String
  counter : Option (Message → Nat)

/-- Default token counter of the offloading middleware.  Its body is not part
of the sampled sources; every theorem below quantifies over the counter, so
only its type matters here.  Modelled from the spec: token estimation is the
character count heuristic documented for the reduction middleware. -/
def defaultTokenCounter (msg : Message) : Nat :=
  msg.content.length

/-- Defaulting logic of newToolResultOffloading: TokenLimit 0 becomes 20000,
the path generator defaults to "/large_tool_result/" followed by the call id,
and the read-file tool name defaults to "read_file". -/
def newToolResultOffloading (config : toolResultOffloadingConfig) : toolResultOffloading :=
  { tokenLimit := if config.tokenLimit = 0 then 20000 else config.tokenLimit
    pathGenerator := match config.pathGenerator with
      | some g => g
      | none => fun input => "/large_tool_result/" ++ input.callID
    toolName := if config.readFileToolName.length = 0 then "read_file" else config.readFileToolName
    counter := match config.counter with
      | some c => c
      | none => defaultTokenCounter }

/-- Result of handleResult: the string returned to the model together with the
write request issued to the backend, if any. -/
def handleResult (t : toolResultOffloading) (result : String) (input : ToolInput) :
    String × Option WriteRequest :=
  if t.counter (ToolMessage result input.callID input.name) > t.tokenLimit * 4 then
    let path := t.pathGenerator input
    let nResult := formatToolMessage result
    let nResult := tooLargeToolMessageRendered input.callID path t.toolName nResult
    (nResult, some { filePath := path, content := result })
  else
    (result, none)

/-! ## Agent events (adk package)

AgentEvent carries an optional output, an optional action and an optional
error.  Interrupt payloads are recursive because a composite interrupt wraps
the isolated session's event list together with the inner payload. -/

structure MessageVariant where
  isStreaming : Bool
  message : Message
  role : RoleType
deriving DecidableEq, Repr

structure TransferToAgentAction where
  destAgentName : String
deriving DecidableEq, Repr

mutual
inductive AgentEvent where
  | mk (agentName : String) (output : Option MessageVariant) (action : Option AgentAction)
      (err : Option String)

inductive AgentAction where
  | mk (exit : Bool) (transferToAgent : Option TransferToAgentAction)
      (interrupted : Option InterruptPayload) (internalInterrupted : Option InterruptPayload)

inductive deterministicTransferState where
  | mk (eventList : List AgentEvent)

inductive InterruptPayload where
  | plain (n : Nat)
  | composite (reason : String) (state : deterministicTransferState) (inner : InterruptPayload)
end

def AgentEvent.agentName : AgentEvent → String
  | .mk n _ _ _ => n

def AgentEvent.output : AgentEvent → Option MessageVariant
  | .mk _ o _ _ => o

def AgentEvent.action : AgentEvent → Option AgentAction
  | .mk _ _ a _ => a

def AgentEvent.err : AgentEvent → Option String
  | .mk _ _ _ e => e

def AgentAction.exit : AgentAction → Bool
  | .mk e _ _ _ => e

def AgentAction.transferToAgent : AgentAction → Option TransferToAgentAction
  | .mk _ t _ _ => t

def AgentAction.interrupted : AgentAction → Option InterruptPayload
  | .mk _ _ i _ => i

def AgentAction.internalInterrupted : AgentAction → Option InterruptPayload
  | .mk _ _ _ i => i

/-- Value of event.Action.Interrupted guarded by the nil check on Action. -/
def interruptedOf (e : AgentEvent) : Option InterruptPayload :=
  match e.action with
  | some a => a.interrupted
  | none => none

/-- Value of event.Action.internalInterrupted guarded by the nil check on
Action. -/
def internalInterruptedOf (e : AgentEvent) : Option InterruptPayload :=
  match e.action with
  | some a => a.internalInterrupted
  | none => none

/-! ## Deterministic transfer wrapper (adk/deterministic_transfer.go) -/

/-- Modelled from the spec: GenTransferMessages is not part of the sampled
sources.  It produces the synthesized assistant tool-call message for
transfer_to_agent and the matching tool result message, whose wording is
pinned by the react-history test assertions. -/
def GenTransferMessages (destAgentName : String) : Message × Message :=
  (AssistantMessage "" [{ name := "transfer_to_agent", arguments := destAgentName }],
   { role := .tool,
     content := "successfully transferred to agent [" ++ destAgentName ++ "]",
     toolCalls := [], toolCallID := "", toolName := "transfer_to_agent" })

/-- Modelled from the spec: EventFromMessage is not part of the sampled
sources.  It wraps a non-streaming message into an event with the given role
and no action or error. -/
def EventFromMessage (msg : Message) (role : RoleType) : AgentEvent :=
  .mk "" (some { isStreaming := false, message := msg, role := role }) none none

/-- Events emitted by sendTransferEvents: one assistant tool-call event and
one tool event carrying the TransferToAgent action, per destination, in
declared order. -/
def sendTransferEvents (toAgentNames : List String) : List AgentEvent :=
  (toAgentNames.map (fun toAgentName =>
    let msgs := GenTransferMessages toAgentName
    let aEvent := EventFromMessage msgs.1 .assistant
    let tEvent := EventFromMessage msgs.2 .tool
    let tEvent := AgentEvent.mk tEvent.agentName tEvent.output
      (some (.mk false (some { destAgentName := toAgentName }) none none)) tEvent.err
    [aEvent, tEvent])).flatten

/-- Condition after the forwarding loop: the final event carried Interrupted
or Exit, so no transfer events are appended. -/
def terminalStopsTransfer (lastEvent : Option AgentEvent) : Bool :=
  match lastEvent with
  | some e =>
    match e.action with
    | some a => a.interrupted.isSome || a.exit
    | none => false
  | none => false

/-- Loop of forwardEventsAndAppendTransfer: every event is sent downstream
while the last event is tracked; once the iterator is exhausted, transfer
events follow unless the terminal event carried Interrupted or Exit. -/
def forwardLoop (toAgentNames : List String) :
    List AgentEvent → Option AgentEvent → List AgentEvent
  | [], lastEvent =>
    if terminalStopsTransfer lastEvent then [] else sendTransferEvents toAgentNames
  | event :: rest, _ => event :: forwardLoop toAgentNames rest (some event)

/-- Events produced on the output iterator by forwardEventsAndAppendTransfer,
given the ordered events of the inner iterator. -/
def forwardEventsAndAppendTransfer (events : List AgentEvent) (toAgentNames : List String) :
    List AgentEvent :=
  forwardLoop toAgentNames events none

/-- Modelled from the spec: CompositeInterrupt is not part of the sampled
sources.  It emits a single user-visible interrupt event whose Interrupted
payload wraps the reason, the deterministic-transfer state (the isolated
session's event list) and the inner internal payload. -/
def CompositeInterrupt (reason : String) (state : deterministicTransferState)
    (inner : InterruptPayload) : AgentEvent :=
  .mk "" none (some (.mk false none (some (.composite reason state inner)) none)) none

/-- Loop of handleFlowAgentEvents.  Events whose action is nil or whose
Interrupted is nil are mirrored to the parent session; events carrying
internalInterrupted are withheld from the output; after the loop, a terminal
internalInterrupted is converted into one composite interrupt event holding
the isolated session's event list, a terminal Exit ends the stream, and
otherwise transfer events follow.  Returns the events sent downstream and the
events mirrored to the parent session. -/
def handleFlowLoop (toAgentNames : List String) (isolatedEvents : List AgentEvent) :
    List AgentEvent → Option AgentEvent → List AgentEvent × List AgentEvent
  | [], lastEvent =>
    match lastEvent with
    | some e =>
      match e.action with
      | some a =>
        match a.internalInterrupted with
        | some inner =>
          ([CompositeInterrupt "deterministic transfer wrapper interrupted"
              (.mk isolatedEvents) inner], [])
        | none =>
          if a.exit then ([], []) else (sendTransferEvents toAgentNames, [])
      | none => (sendTransferEvents toAgentNames, [])
    | none => (sendTransferEvents toAgentNames, [])
  | event :: rest, _ =>
    let mirrored := if (interruptedOf event).isNone then [event] else []
    let res := handleFlowLoop toAgentNames isolatedEvents rest (some event)
    (if (internalInterruptedOf event).isSome then res.1 else event :: res.1,
     mirrored ++ res.2)

/-- Downstream events and parent-session mirror of handleFlowAgentEvents,
given the inner flow's ordered events and the isolated session's event list
at the time the inner iterator ends. -/
def handleFlowAgentEvents (events isolatedEvents : List AgentEvent)
    (toAgentNames : List String) : List AgentEvent × List AgentEvent :=
  handleFlowLoop toAgentNames isolatedEvents events none

/-! ## Agent-as-tool chat history (adk agent tool)

Modelled from the spec: getReactChatHistory is not part of the sampled
sources; its observable output is pinned exactly by TestGetReactHistory and
TestAgentToolWithOptions in adk/agent_tool_test.go.  The last state message
(the assistant tool call that invoked the agent tool) is excluded; user
messages pass through; assistant and tool messages become user-role context
messages; the synthesized transfer_to_agent call and result close the
history. -/

/-- Context messages synthesized for one state message of the react agent. -/
def reactContextOf (agentName : String) (m : Message) : List Message :=
  match m.role with
  | .assistant =>
    if m.toolCalls.isEmpty then
      [UserMessage ("For context: [" ++ agentName ++ "] said: " ++ m.content ++ ".")]
    else
      m.toolCalls.map (fun tc =>
        UserMessage ("For context: [" ++ agentName ++ "] called tool: `" ++ tc.name ++
          "` with arguments: " ++ tc.arguments ++ "."))
  | .tool =>
    [UserMessage ("For context: [" ++ agentName ++ "] `" ++ m.toolName ++
      "` tool returned result: " ++ m.content ++ ".")]
  | _ => [m]

/-- Synthesized transfer_to_agent call and result context messages. -/
def transferContextMessages (agentName destAgentName : String) : List Message :=
  [UserMessage ("For context: [" ++ agentName ++
     "] called tool: `transfer_to_agent` with arguments: " ++ destAgentName ++ "."),
   UserMessage ("For context: [" ++ agentName ++
     "] `transfer_to_agent` tool returned result: successfully transferred to agent [" ++
     destAgentName ++ "].")]

/-- Messages delivered to the inner agent by the agent tool under
WithFullChatHistoryAsInput, given the prior graph state's messages, the state
agent name and the destination (inner agent) name. -/
def getReactChatHistory (stateMessages : List Message) (agentName destAgentName : String) :
    List Message :=
  (stateMessages.dropLast.map (reactContextOf agentName)).flatten ++
    transferContextMessages agentName destAgentName

/-! ## Graph execution engine (compose package)

Modelled from the spec: the compose engine implementation (graph builder,
compiler, scheduler, checkpoint and interrupt machinery) is not part of the
sampled sources; only its test file is.  The model below follows spec
sections 4.6 and 4.7: nodes fire once all predecessors have delivered (the
AllPredecessor discipline, which the spec declares observationally equal to
the pregel discipline on the tested graphs), an interrupt is raised at the
end of a step when an executed node is listed in AfterNodes, a newly ready
node is listed in BeforeNodes, or a sub-graph node propagated an interrupt,
and a checkpoint preserves the delivered frontier, the per-level state and
the nested sub-graph checkpoints.  RerunNodesExtra is empty on every tested
path and is not carried.  Every observable below is pinned by the assertions
of the compose checkpoint tests. -/

/-- Address segment of an interrupt context: the Runnable root or a node. -/
inductive Seg where
  | runnable (id : String)
  | node (id : String)
deriving DecidableEq, Repr

/-- Values flowing between nodes: a string, or a map produced by output-key
fan-in (every map value in the tested graphs is a string). -/
inductive Val where
  | str (s : String)
  | vmap (m : List (String × String))
deriving DecidableEq, Repr

mutual
inductive NodeKind where
  | lam (f : Val → Val)
  | sub (g : CompiledGraph)

inductive GNode where
  | mk (id : String) (kind : NodeKind) (pre : Option (Val → String → Val))
      (outKey : Option String)

inductive CompiledGraph where
  | mk (nodes : List GNode) (edges : List (String × String))
      (beforeNodes afterNodes : List String) (initState : Option String)
end

def GNode.id : GNode → String
  | .mk i _ _ _ => i

def GNode.kind : GNode → NodeKind
  | .mk _ k _ _ => k

def GNode.pre : GNode → Option (Val → String → Val)
  | .mk _ _ p _ => p

def GNode.outKey : GNode → Option String
  | .mk _ _ _ k => k

def CompiledGraph.nodes : CompiledGraph → List GNode
  | .mk ns _ _ _ _ => ns

def CompiledGraph.edges : CompiledGraph → List (String × String)
  | .mk _ es _ _ _ => es

def CompiledGraph.beforeNodes : CompiledGraph → List String
  | .mk _ _ b _ _ => b

def CompiledGraph.afterNodes : CompiledGraph → List String
  | .mk _ _ _ a _ => a

def CompiledGraph.initState : CompiledGraph → Option String
  | .mk _ _ _ _ s => s

/-- Reserved START sentinel node id. -/
def STARTkey : String := "__start__"

/-- Reserved END sentinel node id. -/
def ENDkey : String := "__end__"

def CompiledGraph.findNode (g : CompiledGraph) (id : String) : Option GNode :=
  g.nodes.find? (fun n => n.id = id)

/-- Number of incoming edges of a node. -/
def indegree (g : CompiledGraph) (id : String) : Nat :=
  (g.edges.filter (fun e => e.2 = id)).length

/-- Destinations of the edges leaving a node. -/
def successors (g : CompiledGraph) (id : String) : List String :=
  (g.edges.filter (fun e => e.1 = id)).map (·.2)

/-- Fan-in merge: output-key maps accumulate, anything else is replaced. -/
def mergeVal : Val → Val → Val
  | .vmap a, .vmap b => .vmap (a ++ b)
  | _, b => b

/-- Wrapping of a node output under its output key. -/
def wrapOut : Option String → Val → Val
  | some k, .str s => .vmap [(k, s)]
  | _, v => v

/-- State pre-handler application; stateless levels pass the value through. -/
def applyPre : Option (Val → String → Val) → Option String → Val → Val
  | some f, some a, v => f v a
  | _, _, v => v

/-- Hierarchical interrupt information: per-level state, interrupt-before and
interrupt-after hits, and the nested information of interrupted sub-graphs
indexed by node id. -/
inductive InterruptInfo where
  | mk (state : Option String) (beforeNodes afterNodes : List String)
      (subGraphs : List (String × InterruptInfo))

def InterruptInfo.state : InterruptInfo → Option String
  | .mk s _ _ _ => s

def InterruptInfo.beforeNodes : InterruptInfo → List String
  | .mk _ b _ _ => b

def InterruptInfo.afterNodes : InterruptInfo → List String
  | .mk _ _ a _ => a

def InterruptInfo.subGraphs : InterruptInfo → List (String × InterruptInfo)
  | .mk _ _ _ s => s

/-- Checkpoint of one graph level: the delivered-but-unconsumed inputs with
their delivery counts, the checkpoints of interrupted sub-graph nodes, and
the level's state. -/
inductive Ckpt where
  | mk (inputs : List (String × Val × Nat)) (resumes : List (String × Ckpt))
      (state : Option String)

def Ckpt.inputs : Ckpt → List (String × Val × Nat)
  | .mk i _ _ => i

def Ckpt.resumes : Ckpt → List (String × Ckpt)
  | .mk _ r _ => r

def Ckpt.state : Ckpt → Option String
  | .mk _ _ s => s

/-- Graph-level callback tallies: OnStart, OnEnd and OnError fires with
Component equal to ComponentOfGraph. -/
structure Counts where
  onStart : Nat
  onEnd : Nat
  onError : Nat
deriving DecidableEq, Repr

def Counts.zero : Counts := ⟨0, 0, 0⟩

instance : Add Counts :=
  ⟨fun a b => ⟨a.onStart + b.onStart, a.onEnd + b.onEnd, a.onError + b.onError⟩⟩

/-- Result of running one graph level. -/
inductive RunOut where
  | ok (v : Val)
  | intr (info : InterruptInfo) (ck : Ckpt)
  | stuck

/-- Delivery of a value to one inbox: merge and count. -/
def deliverOne (inputs : List (String × Val × Nat)) (dst : String) (v : Val) :
    List (String × Val × Nat) :=
  match inputs with
  | [] => [(dst, v, 1)]
  | (d, acc, c) :: rest =>
    if d = dst then (d, mergeVal acc v, c + 1) :: rest
    else (d, acc, c) :: deliverOne rest dst v

/-- Delivery of a value to several inboxes. -/
def deliverAll (inputs : List (String × Val × Nat)) (dsts : List String) (v : Val) :
    List (String × Val × Nat) :=
  dsts.foldl (fun acc d => deliverOne acc d v) inputs

/-- Inboxes whose delivery count reached the node's indegree: these nodes fire
on the next step. -/
def readyPart (g : CompiledGraph) (inputs : List (String × Val × Nat)) :
    List (String × Val) :=
  inputs.filterMap (fun x =>
    if x.1 ≠ ENDkey ∧ indegree g x.1 ≤ x.2.2 then some (x.1, x.2.1) else none)

/-- Inboxes still awaiting predecessor deliveries (or the END inbox). -/
def waitingPart (g : CompiledGraph) (inputs : List (String × Val × Nat)) :
    List (String × Val × Nat) :=
  inputs.filter (fun x => ¬(x.1 ≠ ENDkey ∧ indegree g x.1 ≤ x.2.2))

/-- Value delivered to END once all its predecessors have produced. -/
def endValue (g : CompiledGraph) (inputs : List (String × Val × Nat)) : Option Val :=
  (inputs.filterMap (fun x =>
    if x.1 = ENDkey ∧ indegree g ENDkey ≤ x.2.2 then some x.2.1 else none)).head?

/-- Lookup of the resume payload attached to an interrupt-context address. -/
def lookupAddr (resume : List (List Seg × String)) (addr : List Seg) : Option String :=
  (resume.find? (fun p => p.1 = addr)).map (·.2)

/-- Aggregate of one step's node executions. -/
structure ExecAcc where
  outs : List (String × Val)
  subs : List (String × InterruptInfo × Ckpt)
  failed : Bool
  counts : Counts

/-- Calls of the engine interpreter.  A single fuel-indexed function keeps
the interpreter structurally recursive, so that concrete runs reduce inside
the kernel. -/
inductive EngineCall where
  | run (g : CompiledGraph) (addr : List Seg) (entry : Val ⊕ Ckpt)
      (resume : List (List Seg × String))
  | step (g : CompiledGraph) (addr : List Seg) (inputs : List (String × Val × Nat))
      (resumes : List (String × Ckpt)) (state : Option String)
      (resume : List (List Seg × String))
  | rsList (g : CompiledGraph) (addr : List Seg) (rs : List (String × Ckpt))
      (resume : List (List Seg × String))
  | rdList (g : CompiledGraph) (addr : List Seg) (state : Option String)
      (rd : List (String × Val)) (resume : List (List Seg × String))

inductive EngineOut where
  | runRes (r : RunOut) (c : Counts)
  | execRes (a : ExecAcc)

def EngineOut.toRun : EngineOut → RunOut × Counts
  | .runRes r c => (r, c)
  | .execRes _ => (.stuck, Counts.zero)

def EngineOut.toExec : EngineOut → ExecAcc
  | .execRes a => a
  | .runRes _ _ => ⟨[], [], true, Counts.zero⟩

/-- Engine interpreter.

The run call executes one graph level: entry is either a fresh input value or
a saved checkpoint; resume payloads are routed by address; the level counts
one OnStart plus one OnEnd on success or one OnError on interrupt, beyond the
tallies of nested levels.

The step call is one scheduling step: it fires the pending sub-graph resumes
and every ready node, delivers their outputs, then interrupts when an
executed node is listed in AfterNodes, a newly ready node is listed in
BeforeNodes or a sub-graph propagated an interrupt, finishes when END is
fully delivered, and otherwise continues.

The rsList call resumes the interrupted sub-graph nodes of a checkpoint; the
rdList call executes the ready nodes of a step in inbox order, applying state
pre-handlers and running sub-graphs. -/
def engine : Nat → EngineCall → EngineOut
  | 0, c =>
    match c with
    | .run _ _ _ _ => .runRes .stuck ⟨1, 0, 0⟩
    | .step _ _ _ _ _ _ => .runRes .stuck Counts.zero
    | _ => .execRes ⟨[], [], true, Counts.zero⟩
  | fuel + 1, c =>
    match c with
    | .run g addr entry resume =>
      let base : RunOut × Counts :=
        match entry with
        | .inl v =>
          let state := g.initState
          let inputs := deliverAll [] (successors g STARTkey) v
          let readyIds := (readyPart g inputs).map (·.1)
          let beforeHit := readyIds.filter (fun i => g.beforeNodes.contains i)
          if beforeHit.isEmpty then
            (engine fuel (.step g addr inputs [] state resume)).toRun
          else
            (.intr (.mk state beforeHit [] []) (.mk inputs [] state), Counts.zero)
        | .inr ck =>
          let state := match lookupAddr resume addr with
            | some a => some a
            | none => ck.state
          (engine fuel (.step g addr ck.inputs ck.resumes state resume)).toRun
      let hooks : Counts :=
        match base.1 with
        | .ok _ => ⟨1, 1, 0⟩
        | .intr _ _ => ⟨1, 0, 1⟩
        | .stuck => ⟨1, 0, 0⟩
      .runRes base.1 (hooks + base.2)
    | .step g addr inputs resumes state resume =>
      let ready := readyPart g inputs
      if ready.isEmpty ∧ resumes.isEmpty then
        match endValue g inputs with
        | some v => .runRes (.ok v) Counts.zero
        | none => .runRes .stuck Counts.zero
      else
        let waiting := waitingPart g inputs
        let accR := (engine fuel (.rsList g addr resumes resume)).toExec
        let accN := (engine fuel (.rdList g addr state ready resume)).toExec
        let counts := accR.counts + accN.counts
        if accR.failed ∨ accN.failed then .runRes .stuck counts
        else
          let outs := accR.outs ++ accN.outs
          let subs := accR.subs ++ accN.subs
          let newInputs := outs.foldl (fun acc o => deliverAll acc (successors g o.1) o.2) waiting
          let afterHit := (outs.map (·.1)).filter (fun i => g.afterNodes.contains i)
          let beforeHit := ((readyPart g newInputs).map (·.1)).filter
            (fun i => g.beforeNodes.contains i)
          if afterHit.isEmpty ∧ beforeHit.isEmpty ∧ subs.isEmpty then
            match endValue g newInputs with
            | some v => .runRes (.ok v) counts
            | none =>
              let res := (engine fuel (.step g addr newInputs [] state resume)).toRun
              .runRes res.1 (counts + res.2)
          else
            .runRes
              (.intr (.mk state beforeHit afterHit (subs.map (fun s => (s.1, s.2.1))))
                     (.mk newInputs (subs.map (fun s => (s.1, s.2.2))) state))
              counts
    | .rsList g addr rs resume =>
      match rs with
      | [] => .execRes ⟨[], [], false, Counts.zero⟩
      | (id, ck) :: rest =>
        let tail := (engine fuel (.rsList g addr rest resume)).toExec
        match g.findNode id with
        | none => .execRes { tail with failed := true }
        | some n =>
          match n.kind with
          | .lam _ => .execRes { tail with failed := true }
          | .sub sg =>
            match (engine fuel (.run sg (addr ++ [Seg.node id]) (.inr ck) resume)).toRun with
            | (.ok out, c) =>
              .execRes { tail with outs := (id, wrapOut n.outKey out) :: tail.outs,
                                   counts := c + tail.counts }
            | (.intr i ck', c) =>
              .execRes { tail with subs := (id, i, ck') :: tail.subs,
                                   counts := c + tail.counts }
            | (.stuck, c) =>
              .execRes { tail with failed := true, counts := c + tail.counts }
    | .rdList g addr state rd resume =>
      match rd with
      | [] => .execRes ⟨[], [], false, Counts.zero⟩
      | (id, v) :: rest =>
        let tail := (engine fuel (.rdList g addr state rest resume)).toExec
        match g.findNode id with
        | none => .execRes { tail with failed := true }
        | some n =>
          match n.kind with
          | .lam f =>
            .execRes { tail with
              outs := (id, wrapOut n.outKey (f (applyPre n.pre state v))) :: tail.outs }
          | .sub sg =>
            match (engine fuel
                (.run sg (addr ++ [Seg.node id]) (.inl (applyPre n.pre state v)) resume)).toRun with
            | (.ok out, c) =>
              .execRes { tail with outs := (id, wrapOut n.outKey out) :: tail.outs,
                                   counts := c + tail.counts }
            | (.intr i ck', c) =>
              .execRes { tail with subs := (id, i, ck') :: tail.subs,
                                   counts := c + tail.counts }
            | (.stuck, c) =>
              .execRes { tail with failed := true, counts := c + tail.counts }

/-- Runs one graph level (see the run call of the engine). -/
def runGraph (fuel : Nat) (g : CompiledGraph) (addr : List Seg) (entry : Val ⊕ Ckpt)
    (resume : List (List Seg × String)) : RunOut × Counts :=
  (engine fuel (.run g addr entry resume)).toRun

/-! ### Interrupt contexts and addresses -/

/-- Addressed interrupt context, per spec section 3: the ID string is derived
from the Address by joining the rendered segments with a semicolon. -/
structure InterruptCtx where
  Address : List Seg
  Info : Option String
  IsRootCause : Bool
deriving DecidableEq, Repr

/-- Rendering of one address segment. -/
def segString : Seg → String
  | .runnable i => "runnable:" ++ i
  | .node i => "node:" ++ i

/-- Semicolon join of the rendered address segments. -/
def joinAddress (addr : List Seg) : String :=
  match addr with
  | [] => ""
  | [s] => segString s
  | s :: rest => segString s ++ ";" ++ joinAddress rest

/-- ID of an interrupt context: derived from its Address. -/
def InterruptCtx.ID (c : InterruptCtx) : String :=
  joinAddress c.Address

/-- Depth-first walk of an interrupt-information tree producing one context
per level; a level's address extends its parent's by a node segment, and a
level with no interrupted sub-graphs is a root cause.  The walk is
fuel-indexed so that it stays structurally recursive; any fuel at least the
tree depth produces the full context list. -/
def collectCtxsF : Nat → List Seg → InterruptInfo → List InterruptCtx
  | 0, _, _ => []
  | fuel + 1, addr, .mk st _ _ subs =>
    { Address := addr, Info := st, IsRootCause := subs.isEmpty } ::
      (subs.map (fun x => collectCtxsF fuel (addr ++ [Seg.node x.1]) x.2)).flatten

/-- Context list of an interrupt-information tree (the tested trees have
depth at most three, far below the fixed fuel). -/
def collectCtxs (addr : List Seg) (info : InterruptInfo) : List InterruptCtx :=
  collectCtxsF 32 addr info

/-- InterruptContexts as exposed on InterruptInfo: the root-cause contexts of
the tree under the Runnable root segment. -/
def interruptContexts (graphName : String) (info : InterruptInfo) : List InterruptCtx :=
  (collectCtxs [Seg.runnable graphName] info).filter (·.IsRootCause)

/-! ### Top-level Invoke with checkpoint and resume -/

/-- Invoke of a compiled runnable: fresh when no checkpoint is stored under
the checkpoint id, resuming otherwise; ResumeWithData payloads are keyed by
the interrupt-context address, which determines the context ID. -/
def Invoke (g : CompiledGraph) (graphName : String) (input : String)
    (stored : Option Ckpt) (resume : List (List Seg × String)) : RunOut × Counts :=
  runGraph 40 g [Seg.runnable graphName] (match stored with
    | none => .inl (.str input)
    | some ck => .inr ck) resume

def infoOf : RunOut → InterruptInfo
  | .intr i _ => i
  | _ => .mk none [] [] []

def ckOf : RunOut → Ckpt
  | .intr _ c => c
  | _ => .mk [] [] none

def isIntr : RunOut → Bool
  | .intr _ _ => true
  | _ => false

/-! ### Scenario S1: simple checkpoint (TestSimpleCheckPoint) -/

/-- Lambda lifting a string function to a node value function. -/
def strFn (f : String → String) : Val → Val
  | .str s => .str (f s)
  | v => v

/-- State pre-handler of the tested nodes that take a string: appends the
state's field A to the input. -/
def preAppendA : Option (Val → String → Val) :=
  some (fun v a => match v with
    | .str s => .str (s ++ a)
    | v => v)

/-- Graph of scenario S1: START to node 1 to node 2 to END; node 1 appends
"1"; node 2 has the state pre-handler and appends "2"; interrupt-after node 1
and interrupt-before node 2; state factory yields A = "". -/
def s1Graph : CompiledGraph :=
  .mk [.mk "1" (.lam (strFn (fun s => s ++ "1"))) none none,
       .mk "2" (.lam (strFn (fun s => s ++ "2"))) preAppendA none]
      [(STARTkey, "1"), ("1", "2"), ("2", ENDkey)]
      ["2"] ["1"] (some "")

def s1Run1 : RunOut × Counts := Invoke s1Graph "root" "start" none []

def s1Info1 : InterruptInfo := infoOf s1Run1.1

def s1Ctx1 : InterruptCtx :=
  (interruptContexts "root" s1Info1).headD ⟨[], none, false⟩

def s1Run2 : RunOut × Counts :=
  Invoke s1Graph "root" "start" (some (ckOf s1Run1.1)) [(s1Ctx1.Address, "state")]

/-! ### Scenario S2: nested sub-graph interrupts (TestNestedSubGraph) -/

/-- Innermost sub-graph sSubG: node 1 appends "1", node 2 appends "2" after
the state pre-handler; compiled with interrupt-after node 1. -/
def sSubG : CompiledGraph :=
  .mk [.mk "1" (.lam (strFn (fun s => s ++ "1"))) none none,
       .mk "2" (.lam (strFn (fun s => s ++ "2"))) preAppendA none]
      [(STARTkey, "1"), ("1", "2"), ("2", ENDkey)]
      [] ["1"] (some "")

/-- Lambda of subG's node 4: reads the keys "2", "3" and "state" of its fan-in
map and appends "4" plus a newline to each. -/
def node4Fn : Val → Val
  | .vmap m =>
    .str ((m.lookup "2").getD "" ++ "4\n" ++ (m.lookup "3").getD "" ++ "4\n" ++
      (m.lookup "state").getD "" ++ "4\n")
  | v => v

/-- Pre-handler of subG's node 4: stores the state's field A under the key
"state" of the fan-in map. -/
def node4Pre : Option (Val → String → Val) :=
  some (fun v a => match v with
    | .vmap m => .vmap (m ++ [("state", a)])
    | v => v)

/-- Middle sub-graph subG: node 1 appends "1"; node 2 is sSubG behind the
state pre-handler with output key "2"; node 3 appends "3" with output key
"3"; node 4 folds the fan-in map; compiled with interrupt-after nodes 1 and 3
and interrupt-before node 4. -/
def subG : CompiledGraph :=
  .mk [.mk "1" (.lam (strFn (fun s => s ++ "1"))) none none,
       .mk "2" (.sub sSubG) preAppendA (some "2"),
       .mk "3" (.lam (strFn (fun s => s ++ "3"))) none (some "3"),
       .mk "4" (.lam node4Fn) node4Pre none]
      [(STARTkey, "1"), ("1", "2"), ("1", "3"), ("3", "4"), ("2", "4"), ("4", ENDkey)]
      ["4"] ["1", "3"] (some "")

/-- Outer graph of scenario S2: node 1 appends "1", node 2 is subG, node 3
appends "3"; no state factory and no own interrupt policy. -/
def s2Graph : CompiledGraph :=
  .mk [.mk "1" (.lam (strFn (fun s => s ++ "1"))) none none,
       .mk "2" (.sub subG) none none,
       .mk "3" (.lam (strFn (fun s => s ++ "3"))) none none]
      [(STARTkey, "1"), ("1", "2"), ("2", "3"), ("3", ENDkey)]
      [] [] none

def s2Run1 : RunOut × Counts := Invoke s2Graph "root" "start" none []

def s2Info1 : InterruptInfo := infoOf s2Run1.1

def s2Ctx1 : InterruptCtx :=
  (interruptContexts "root" s2Info1).headD ⟨[], none, false⟩

def s2Run2 : RunOut × Counts :=
  Invoke s2Graph "root" "start" (some (ckOf s2Run1.1)) [(s2Ctx1.Address, "state")]

def s2Info2 : InterruptInfo := infoOf s2Run2.1

def s2Ctx2 : InterruptCtx :=
  (interruptContexts "root" s2Info2).headD ⟨[], none, false⟩

def s2Run3 : RunOut × Counts :=
  Invoke s2Graph "root" "start" (some (ckOf s2Run2.1)) [(s2Ctx2.Address, "state")]

def s2Info3 : InterruptInfo := infoOf s2Run3.1

def s2Ctx3 : InterruptCtx :=
  (interruptContexts "root" s2Info3).headD ⟨[], none, false⟩

def s2Run4 : RunOut × Counts :=
  Invoke s2Graph "root" "start" (some (ckOf s2Run3.1)) [(s2Ctx3.Address, "state2")]

/-- Total graph-level callback tallies over the four Invoke calls of S2. -/
def s2Totals : Counts :=
  s2Run1.2 + s2Run2.2 + s2Run3.2 + s2Run4.2

/-! ### Well-formedness of interrupt trees, for the address uniqueness
invariant -/

/-- Character-level semicolon join, mirroring joinAddress on the underlying
character lists. -/
def charJoin : List (List Char) → List Char
  | [] => []
  | [x] => x
  | x :: rest => x ++ ';' :: charJoin rest

/-- Characters of a rendered address segment. -/
def segChars (s : Seg) : List Char :=
  (segString s).data

/-- Holds when a string contains no semicolon. -/
def semFreeB (s : String) : Bool :=
  s.data.all (· ≠ ';')

/-- Holds when a segment's payload contains no semicolon. -/
def goodSeg : Seg → Bool
  | .runnable i => semFreeB i
  | .node i => semFreeB i

/-- Holds when the listed keys are pairwise distinct. -/
def keysDistinct : List String → Bool
  | [] => true
  | x :: xs => !(xs.contains x) && keysDistinct xs

/-- Well-formedness of an interrupt-information tree down to the given depth:
sibling sub-graph keys are node ids, hence distinct within their map and free
of semicolons. -/
def goodInfoF : Nat → InterruptInfo → Bool
  | 0, _ => true
  | fuel + 1, .mk _ _ _ subs =>
    keysDistinct (subs.map (·.1)) && (subs.map (·.1)).all semFreeB &&
      subs.all (fun x => goodInfoF fuel x.2)

/-! ## Claim theorems -/

/-- C1: for the S1 graph (START to 1 to 2 to END, node 1 returning input plus
"1", node 2 with a state pre-handler appending state.A and returning input
plus "2", interrupt-after node 1, interrupt-before node 2, state factory
yielding A = ""), the first Invoke with input "start" and a checkpoint id
interrupts with extracted info BeforeNodes = ["2"], AfterNodes = ["1"] and
State A = "", and after ResumeWithData with state A = "state" the second
Invoke with the same checkpoint id returns "start1state2". -/
theorem C1_simple_checkpoint :
    isIntr s1Run1.1 = true ∧
    s1Info1.state = some "" ∧
    s1Info1.beforeNodes = ["2"] ∧
    s1Info1.afterNodes = ["1"] ∧
    s1Info1.subGraphs = [] ∧
    interruptContexts "root" s1Info1 =
      [{ Address := [Seg.runnable "root"], Info := some "", IsRootCause := true }] ∧
    s1Run2.1 = .ok (.str "start1state2") :=
  ⟨rfl, rfl, rfl, rfl, rfl, rfl, rfl⟩

/-- C2: for the S2 nested sub-graph setup, invoking with input "start" and a
checkpoint id yields three successive interrupts (the root's node 2 sub-graph
paused after node 1; then after node 3 with the nested sSubG paused after its
node 1; then before node 4), and resuming each in sequence with states
A = "state", A = "state", A = "state2" makes the final Invoke return exactly
the expected four-line string. -/
theorem C2_nested_subgraph_interrupts :
    isIntr s2Run1.1 = true ∧
    (s2Info1.subGraphs.map (fun p => (p.1, p.2.state, p.2.beforeNodes, p.2.afterNodes))) =
      [("2", some "", [], ["1"])] ∧
    isIntr s2Run2.1 = true ∧
    (s2Info2.subGraphs.map (fun p => (p.1, p.2.state, p.2.afterNodes,
        p.2.subGraphs.map (fun q => (q.1, q.2.state, q.2.afterNodes))))) =
      [("2", some "state", ["3"], [("2", some "", ["1"])])] ∧
    isIntr s2Run3.1 = true ∧
    (s2Info3.subGraphs.map (fun p => (p.1, p.2.state, p.2.beforeNodes, p.2.afterNodes))) =
      [("2", some "state", ["4"], [])] ∧
    s2Run4.1 = .ok (.str "start11state1state24\nstart1134\nstate24\n3") :=
  ⟨rfl, rfl, rfl, rfl, rfl, rfl, rfl⟩

/-- C3 counterexample: the root-cause leaf of the first S2 interrupt does not
carry the three-segment address the claim states; its address has only two
segments, because the first interrupt fires when subG pauses after its own
node 1, before the nested sSubG has run at all. -/
theorem C3_counterexample :
    s2Ctx1.Address ≠
      [Seg.runnable "root", Seg.node "2", Seg.node "2"] := by
  decide

/-- C3 amended: in scenario S2 the root-cause leaf of the first interrupt has
the two-segment address root/node 2, the leaf of the second interrupt has the
three-segment address root/node 2/node 2, and the leaf of the third interrupt
has the two-segment address root/node 2. -/
theorem C3_leaf_addresses :
    s2Ctx1.Address = [Seg.runnable "root", Seg.node "2"] ∧
    s2Ctx2.Address = [Seg.runnable "root", Seg.node "2", Seg.node "2"] ∧
    s2Ctx3.Address = [Seg.runnable "root", Seg.node "2"] :=
  ⟨rfl, rfl, rfl⟩

/-- C8 counterexample: across the four Invoke calls of scenario S2 (the
initial invoke, two interrupted resumes and the successful final resume), the
graph-component OnError hook fires 7 times, not 14; the test's tally of 14
also covers the four Stream calls that repeat the same scenario. -/
theorem C8_counterexample : s2Totals.onError ≠ 14 := by
  decide

/-- C8 amended: across the four Invoke calls of scenario S2 the
graph-component OnStart hook fires exactly 10 times, OnEnd exactly 3 times
and OnError exactly 7 times (each execution sequence contributes 7 OnError
fires; the test's 14 tallies the Invoke sequence plus the identical Stream
sequence). -/
theorem C8_callback_counts :
    s2Totals = { onStart := 10, onEnd := 3, onError := 7 } :=
  rfl

/-! ### Lemmas for the interrupt-context ID invariant (C4) -/

theorem joinAddress_data : ∀ addr : List Seg,
    (joinAddress addr).data = charJoin (addr.map segChars)
  | [] => rfl
  | [_] => rfl
  | s :: t :: rs => by
    show ((segString s ++ ";") ++ joinAddress (t :: rs)).data = _
    rw [String.data_append, String.data_append]
    rw [joinAddress_data (t :: rs)]
    show segChars s ++ [';'] ++ _ = charJoin (segChars s :: segChars t :: _)
    rw [show ∀ (x y : List Char) (L : List (List Char)),
      charJoin (x :: y :: L) = x ++ ';' :: charJoin (y :: L) from fun _ _ _ => rfl]
    simp

theorem sem_split : ∀ (l1 l2 r1 r2 : List Char), ';' ∉ l1 → ';' ∉ l2 →
    l1 ++ ';' :: r1 = l2 ++ ';' :: r2 → l1 = l2 ∧ r1 = r2 := by
  intro l1
  induction l1 with
  | nil =>
    intro l2 r1 r2 _ h2 heq
    cases l2 with
    | nil => simpa using heq
    | cons b bs =>
      simp only [List.nil_append, List.cons_append, List.cons.injEq] at heq
      exact absurd (heq.1 ▸ List.mem_cons_self b bs) (fun hm => h2 (heq.1 ▸ hm))
  | cons a as ih =>
    intro l2 r1 r2 h1 h2 heq
    cases l2 with
    | nil =>
      simp only [List.cons_append, List.nil_append, List.cons.injEq] at heq
      exact absurd (heq.1 ▸ List.mem_cons_self a as) (fun hm => h1 (heq.1 ▸ hm))
    | cons b bs =>
      simp only [List.cons_append, List.cons.injEq] at heq
      have hrec := ih bs r1 r2 (fun hm => h1 (List.mem_cons_of_mem a hm))
        (fun hm => h2 (List.mem_cons_of_mem b hm)) heq.2
      exact ⟨by rw [heq.1, hrec.1], hrec.2⟩

theorem sem_mem_charJoin (x y : List Char) (L : List (List Char)) :
    ';' ∈ charJoin (x :: y :: L) := by
  show ';' ∈ x ++ ';' :: charJoin (y :: L)
  exact List.mem_append_right x (List.mem_cons_self ';' _)

theorem charJoin_inj : ∀ (L1 L2 : List (List Char)),
    (∀ x ∈ L1, x ≠ [] ∧ ';' ∉ x) → (∀ x ∈ L2, x ≠ [] ∧ ';' ∉ x) →
    charJoin L1 = charJoin L2 → L1 = L2 := by
  intro L1
  induction L1 with
  | nil =>
    intro L2 _ hg2 heq
    cases L2 with
    | nil => rfl
    | cons y ys =>
      exfalso
      cases ys with
      | nil =>
        exact (hg2 y (List.mem_cons_self y [])).1 (by simpa [charJoin] using heq.symm)
      | cons z zs =>
        have hy := (hg2 y (List.mem_cons_self y _)).1
        have : charJoin ([] : List (List Char)) = [] := rfl
        rw [this] at heq
        have : y ++ ';' :: charJoin (z :: zs) = [] := heq.symm
        cases y with
        | nil => simp at this
        | cons c cs => simp at this
  | cons x xs ih =>
    intro L2 hg1 hg2 heq
    cases L2 with
    | nil =>
      exfalso
      cases xs with
      | nil =>
        exact (hg1 x (List.mem_cons_self x [])).1 (by simpa [charJoin] using heq)
      | cons z zs =>
        have : x ++ ';' :: charJoin (z :: zs) = [] := heq
        cases x with
        | nil => simp at this
        | cons c cs => simp at this
    | cons y ys =>
      cases xs with
      | nil =>
        cases ys with
        | nil => simpa [charJoin] using heq
        | cons z zs =>
          exfalso
          have hx := (hg1 x (List.mem_cons_self x [])).2
          have : charJoin [x] = x := rfl
          rw [this] at heq
          exact hx (heq ▸ sem_mem_charJoin y z zs)
      | cons w ws =>
        cases ys with
        | nil =>
          exfalso
          have hy := (hg2 y (List.mem_cons_self y [])).2
          have : charJoin [y] = y := rfl
          rw [this] at heq
          exact hy (heq ▸ sem_mem_charJoin x w ws)
        | cons z zs =>
          have heq' : x ++ ';' :: charJoin (w :: ws) = y ++ ';' :: charJoin (z :: zs) := heq
          have hx := hg1 x (List.mem_cons_self x _)
          have hy := hg2 y (List.mem_cons_self y _)
          have hsplit := sem_split x y (charJoin (w :: ws)) (charJoin (z :: zs)) hx.2 hy.2 heq'
          have hrest := ih (z :: zs) (fun a ha => hg1 a (List.mem_cons_of_mem x ha))
            (fun a ha => hg2 a (List.mem_cons_of_mem y ha)) hsplit.2
          rw [hsplit.1, hrest]

theorem segChars_ne_nil (s : Seg) : segChars s ≠ [] := by
  cases s with
  | runnable i =>
    show ("runnable:" ++ i).data ≠ []
    rw [String.data_append]
    simp [show ("runnable:").data = ['r','u','n','n','a','b','l','e',':'] from rfl]
  | node i =>
    show ("node:" ++ i).data ≠ []
    rw [String.data_append]
    simp [show ("node:").data = ['n','o','d','e',':'] from rfl]

theorem semFreeB_not_mem {s : String} (h : semFreeB s = true) : ';' ∉ s.data := by
  intro hm
  have h2 := List.all_eq_true.mp h ';' hm
  simp at h2

theorem segChars_semfree (s : Seg) (h : goodSeg s = true) : ';' ∉ segChars s := by
  cases s with
  | runnable i =>
    show ';' ∉ ("runnable:" ++ i).data
    rw [String.data_append]
    intro hm
    rcases List.mem_append.mp hm with hl | hr
    · revert hl
      simp [show ("runnable:").data = ['r','u','n','n','a','b','l','e',':'] from rfl]
    · exact semFreeB_not_mem h hr
  | node i =>
    show ';' ∉ ("node:" ++ i).data
    rw [String.data_append]
    intro hm
    rcases List.mem_append.mp hm with hl | hr
    · revert hl
      simp [show ("node:").data = ['n','o','d','e',':'] from rfl]
    · exact semFreeB_not_mem h hr

theorem segChars_inj : Function.Injective segChars := by
  intro s t heq
  cases s with
  | runnable i =>
    cases t with
    | runnable j =>
      have : ("runnable:" ++ i).data = ("runnable:" ++ j).data := heq
      rw [String.data_append, String.data_append] at this
      exact congrArg Seg.runnable (String.ext (List.append_cancel_left this))
    | node j =>
      exfalso
      have : ("runnable:" ++ i).data = ("node:" ++ j).data := heq
      rw [String.data_append, String.data_append] at this
      rw [show ("runnable:").data = ['r','u','n','n','a','b','l','e',':'] from rfl,
        show ("node:").data = ['n','o','d','e',':'] from rfl] at this
      simp at this
  | node i =>
    cases t with
    | runnable j =>
      exfalso
      have : ("node:" ++ i).data = ("runnable:" ++ j).data := heq
      rw [String.data_append, String.data_append] at this
      rw [show ("runnable:").data = ['r','u','n','n','a','b','l','e',':'] from rfl,
        show ("node:").data = ['n','o','d','e',':'] from rfl] at this
      simp at this
    | node j =>
      have : ("node:" ++ i).data = ("node:" ++ j).data := heq
      rw [String.data_append, String.data_append] at this
      exact congrArg Seg.node (String.ext (List.append_cancel_left this))

theorem joinAddress_inj (a b : List Seg) (ha : ∀ s ∈ a, goodSeg s = true)
    (hb : ∀ s ∈ b, goodSeg s = true) (heq : joinAddress a = joinAddress b) : a = b := by
  have hdata : charJoin (a.map segChars) = charJoin (b.map segChars) := by
    rw [← joinAddress_data, ← joinAddress_data, heq]
  have hmaps := charJoin_inj (a.map segChars) (b.map segChars)
    (by
      intro x hx
      obtain ⟨s, hs, rfl⟩ := List.mem_map.mp hx
      exact ⟨segChars_ne_nil s, segChars_semfree s (ha s hs)⟩)
    (by
      intro x hx
      obtain ⟨s, hs, rfl⟩ := List.mem_map.mp hx
      exact ⟨segChars_ne_nil s, segChars_semfree s (hb s hs)⟩)
    hdata
  exact List.map_injective_iff.mpr segChars_inj hmaps

theorem keysDistinct_pairwise : ∀ (l : List (String × InterruptInfo)),
    keysDistinct (l.map (·.1)) = true → l.Pairwise (fun a b => a.1 ≠ b.1) := by
  intro l
  induction l with
  | nil => intro _; exact List.Pairwise.nil
  | cons x xs ih =>
    intro h
    have h' : ((!((xs.map (·.1)).contains x.1)) && keysDistinct (xs.map (·.1))) = true := h
    rw [Bool.and_eq_true, Bool.not_eq_true'] at h'
    refine List.Pairwise.cons ?_ (ih h'.2)
    intro b hb heq
    have hc : (xs.map (·.1)).contains x.1 = true :=
      List.elem_eq_true_of_mem (heq ▸ List.mem_map_of_mem (·.1) hb)
    rw [h'.1] at hc
    cases hc

theorem collect_spec : ∀ (fuel : Nat) (addr : List Seg) (info : InterruptInfo),
    goodInfoF fuel info = true →
    ((collectCtxsF fuel addr info).map (·.Address)).Nodup ∧
      ∀ c ∈ collectCtxsF fuel addr info,
        ∃ p, c.Address = addr ++ p ∧ ∀ s ∈ p, goodSeg s = true := by
  intro fuel
  induction fuel with
  | zero =>
    intro addr info _
    exact ⟨List.Pairwise.nil, by intro c hc; cases hc⟩
  | succ fuel ih =>
    intro addr info hg
    cases info with
    | mk st bn an subs =>
      have hg' : ((keysDistinct (subs.map (·.1)) && (subs.map (·.1)).all semFreeB) &&
          subs.all (fun x => goodInfoF fuel x.2)) = true := hg
      rw [Bool.and_eq_true, Bool.and_eq_true] at hg'
      obtain ⟨⟨hkd, hsem⟩, hrec⟩ := hg'
      have hchildgood : ∀ x ∈ subs, goodInfoF fuel x.2 = true :=
        fun x hx => List.all_eq_true.mp hrec x hx
      have hkeysem : ∀ x ∈ subs, goodSeg (Seg.node x.1) = true := by
        intro x hx
        exact List.all_eq_true.mp hsem x.1 (List.mem_map_of_mem (·.1) hx)
      have hshape : collectCtxsF (fuel + 1) addr (.mk st bn an subs) =
          ({ Address := addr, Info := st, IsRootCause := subs.isEmpty } : InterruptCtx) ::
            (subs.map (fun x => collectCtxsF fuel (addr ++ [Seg.node x.1]) x.2)).flatten := rfl
      have hmemchild : ∀ c ∈ (subs.map
          (fun x => collectCtxsF fuel (addr ++ [Seg.node x.1]) x.2)).flatten,
          ∃ x ∈ subs, ∃ p, c.Address = addr ++ (Seg.node x.1 :: p) ∧
            ∀ s ∈ Seg.node x.1 :: p, goodSeg s = true := by
        intro c hc
        obtain ⟨l, hl, hcl⟩ := List.mem_flatten.mp hc
        obtain ⟨x, hx, rfl⟩ := List.mem_map.mp hl
        obtain ⟨p', hp', hgood'⟩ := (ih (addr ++ [Seg.node x.1]) x.2 (hchildgood x hx)).2 c hcl
        refine ⟨x, hx, p', ?_, ?_⟩
        · rw [hp', List.append_assoc]
          rfl
        · intro s hs
          rcases List.mem_cons.mp hs with rfl | hs'
          · exact hkeysem x hx
          · exact hgood' s hs'
      constructor
      · rw [hshape, List.map_cons]
        rw [List.nodup_cons]
        constructor
        · intro hmem
          obtain ⟨c, hc, hca⟩ := List.mem_map.mp hmem
          obtain ⟨x, _, p, hp, _⟩ := hmemchild c hc
          rw [hca] at hp
          have hlen := congrArg List.length hp
          rw [List.length_append] at hlen
          simp at hlen
        · rw [List.map_flatten, List.map_map]
          rw [List.nodup_flatten]
          constructor
          · intro l' hl'
            obtain ⟨x, hx, rfl⟩ := List.mem_map.mp hl'
            exact (ih (addr ++ [Seg.node x.1]) x.2 (hchildgood x hx)).1
          · rw [List.pairwise_map]
            refine (keysDistinct_pairwise subs hkd).imp_of_mem ?_
            intro x y hx hy hxy
            intro a hax hay
            obtain ⟨cx, hcx, hcax⟩ := List.mem_map.mp hax
            obtain ⟨cy, hcy, hcay⟩ := List.mem_map.mp hay
            obtain ⟨px, hpx, hgx⟩ := (ih (addr ++ [Seg.node x.1]) x.2 (hchildgood x hx)).2 cx hcx
            obtain ⟨py, hpy, hgy⟩ := (ih (addr ++ [Seg.node y.1]) y.2 (hchildgood y hy)).2 cy hcy
            have : (addr ++ [Seg.node x.1]) ++ px = (addr ++ [Seg.node y.1]) ++ py := by
              rw [← hpx, ← hpy, hcax, hcay]
            rw [List.append_assoc, List.append_assoc] at this
            have hcons := List.append_cancel_left this
            simp only [List.singleton_append, List.cons.injEq] at hcons
            exact hxy (by injection hcons.1)
      · rw [hshape]
        intro c hc
        rcases List.mem_cons.mp hc with rfl | hc'
        · exact ⟨[], by simp, by intro s hs; cases hs⟩
        · obtain ⟨x, _, p, hp, hps⟩ := hmemchild c hc'
          exact ⟨Seg.node x.1 :: p, hp, hps⟩

/-- C4: every interrupt context produced from an interrupt-information tree
whose sibling sub-graph keys are distinct and semicolon-free (they are node
ids) has ID equal to the semicolon join of its rendered address segments, and
these IDs are pairwise distinct within the tree of one run; concretely, the
three-level leaf of scenario S2's second interrupt has ID
"runnable:root;node:2;node:2". -/
theorem C4_ctx_id_unique (fuel : Nat) (name : String) (info : InterruptInfo)
    (hg : goodInfoF fuel info = true) (hn : semFreeB name = true) :
    (∀ c ∈ collectCtxsF fuel [Seg.runnable name] info, c.ID = joinAddress c.Address) ∧
    ((collectCtxsF fuel [Seg.runnable name] info).map (·.ID)).Nodup ∧
    s2Ctx2.ID = "runnable:root;node:2;node:2" := by
  have spec := collect_spec fuel [Seg.runnable name] info hg
  refine ⟨fun c _ => rfl, ?_, rfl⟩
  have hroot : ∀ s ∈ [Seg.runnable name], goodSeg s = true := by
    intro s hs
    rw [List.mem_singleton.mp hs]
    exact hn
  have hmap : (collectCtxsF fuel [Seg.runnable name] info).map (·.ID) =
      ((collectCtxsF fuel [Seg.runnable name] info).map (·.Address)).map joinAddress := by
    rw [List.map_map]
    rfl
  rw [hmap]
  refine spec.1.map_on ?_
  intro x hx y hy hxy
  obtain ⟨cx, hcx, rfl⟩ := List.mem_map.mp hx
  obtain ⟨cy, hcy, rfl⟩ := List.mem_map.mp hy
  obtain ⟨px, hpx, hgx⟩ := spec.2 cx hcx
  obtain ⟨py, hpy, hgy⟩ := spec.2 cy hcy
  refine joinAddress_inj _ _ ?_ ?_ hxy
  · rw [hpx]
    intro s hs
    rcases List.mem_append.mp hs with h | h
    · exact hroot s h
    · exact hgx s h
  · rw [hpy]
    intro s hs
    rcases List.mem_append.mp hs with h | h
    · exact hroot s h
    · exact hgy s h

/-- Witness for C4 at the tree of scenario S2's second interrupt. -/
theorem C4_ctx_id_unique_witness :
    goodInfoF 32 s2Info2 = true ∧ semFreeB "root" = true ∧
    ((collectCtxsF 32 [Seg.runnable "root"] s2Info2).map (·.ID)).Nodup ∧
    s2Ctx2.ID = "runnable:root;node:2;node:2" := by
  have h := C4_ctx_id_unique 32 "root" s2Info2 (by decide) (by decide)
  exact ⟨by decide, by decide, h.2.1, h.2.2⟩

/-! ### Lemmas for the deterministic-transfer wrapper (C5, C6) -/

theorem forwardLoop_eq (toAgentNames : List String) :
    ∀ (events : List AgentEvent) (lastEvent : Option AgentEvent),
    forwardLoop toAgentNames events lastEvent =
      events ++
        (if terminalStopsTransfer (events.getLast?.or lastEvent) then []
         else sendTransferEvents toAgentNames) := by
  intro events
  induction events with
  | nil => intro lastEvent; simp [forwardLoop]
  | cons e rest ih =>
    intro lastEvent
    cases rest with
    | nil => simp [forwardLoop]
    | cons r rs =>
      show e :: forwardLoop toAgentNames (r :: rs) (some e) = _
      rw [ih (some e), List.getLast?_cons_cons]
      have : (r :: rs).getLast?.or (some e) = (r :: rs).getLast?.or lastEvent := by
        cases h : (r :: rs).getLast? with
        | some x => rfl
        | none => cases rs <;> simp [List.getLast?] at h
      rw [this]
      rfl

theorem handleFlowLoop_sent (toAgentNames : List String) (isolatedEvents : List AgentEvent) :
    ∀ (events : List AgentEvent) (lastEvent : Option AgentEvent),
    (handleFlowLoop toAgentNames isolatedEvents events lastEvent).1 =
      events.filter (fun e => (internalInterruptedOf e).isNone) ++
        (handleFlowLoop toAgentNames isolatedEvents []
          (events.getLast?.or lastEvent)).1 := by
  intro events
  induction events with
  | nil => intro lastEvent; simp
  | cons e rest ih =>
    intro lastEvent
    have hlast : (e :: rest).getLast?.or lastEvent = rest.getLast?.or (some e) := by
      cases rest with
      | nil => rfl
      | cons r rs =>
        rw [List.getLast?_cons_cons]
        cases h : (r :: rs).getLast? with
        | some x => rfl
        | none => cases rs <;> simp [List.getLast?] at h
    rw [hlast]
    have hstep : (handleFlowLoop toAgentNames isolatedEvents (e :: rest) lastEvent).1 =
        (if (internalInterruptedOf e).isSome then
          (handleFlowLoop toAgentNames isolatedEvents rest (some e)).1
        else e :: (handleFlowLoop toAgentNames isolatedEvents rest (some e)).1) := rfl
    rw [hstep, ih (some e)]
    cases hie : internalInterruptedOf e <;>
      simp [List.filter_cons, hie]

theorem sendTransferEvents_internal_none (toAgentNames : List String) :
    ∀ e ∈ sendTransferEvents toAgentNames, internalInterruptedOf e = none := by
  intro e he
  obtain ⟨l, hl, hel⟩ := List.mem_flatten.mp he
  obtain ⟨n, _, rfl⟩ := List.mem_map.mp hl
  simp only [List.mem_cons, List.not_mem_nil, or_false] at hel
  rcases hel with rfl | rfl
  · rfl
  · rfl

/-- C5: the deterministic-transfer wrapper around a flowAgent never delivers
an event carrying internalInterrupted downstream, and when the final event of
the inner flow carries internalInterrupted it is converted into a single
composite interrupt event wrapping the isolated session's event list before
the iterator closes. -/
theorem C5_internal_interrupt_hidden (events isolatedEvents : List AgentEvent)
    (toAgentNames : List String) :
    (∀ e ∈ (handleFlowAgentEvents events isolatedEvents toAgentNames).1,
      internalInterruptedOf e = none) ∧
    (∀ (lastEvent : AgentEvent) (inner : InterruptPayload),
      events.getLast? = some lastEvent → internalInterruptedOf lastEvent = some inner →
      (handleFlowAgentEvents events isolatedEvents toAgentNames).1 =
        events.filter (fun e => (internalInterruptedOf e).isNone) ++
          [CompositeInterrupt "deterministic transfer wrapper interrupted"
            (deterministicTransferState.mk isolatedEvents) inner]) := by
  have hsent := handleFlowLoop_sent toAgentNames isolatedEvents events none
  constructor
  · intro e he
    rw [handleFlowAgentEvents, hsent] at he
    rcases List.mem_append.mp he with hf | hb
    · have := List.of_mem_filter hf
      cases h : internalInterruptedOf e with
      | none => rfl
      | some _ => rw [h] at this; cases this
    · cases hlast : events.getLast?.or none with
      | none =>
        rw [hlast] at hb
        exact sendTransferEvents_internal_none toAgentNames e hb
      | some le =>
        rw [hlast] at hb
        show internalInterruptedOf e = none
        cases hact : le.action with
        | none =>
          simp only [handleFlowLoop, hact] at hb
          exact sendTransferEvents_internal_none toAgentNames e hb
        | some a =>
          cases hint : a.internalInterrupted with
          | none =>
            simp only [handleFlowLoop, hact, hint] at hb
            by_cases hex : a.exit = true
            · simp [hex] at hb
            · rw [Bool.not_eq_true] at hex
              simp [hex] at hb
              exact sendTransferEvents_internal_none toAgentNames e hb
          | some inner =>
            simp only [handleFlowLoop, hact, hint] at hb
            rw [List.mem_singleton] at hb
            rw [hb]
            rfl
  · intro lastEvent inner hlast hint
    rw [handleFlowAgentEvents, hsent, hlast]
    show _ ++ (handleFlowLoop toAgentNames isolatedEvents [] (some lastEvent)).1 = _
    cases hact : lastEvent.action with
    | none =>
      simp only [internalInterruptedOf, hact] at hint
      exact Option.noConfusion hint
    | some a =>
      simp only [internalInterruptedOf, hact] at hint
      simp only [handleFlowLoop, hact, hint]

/-- Witness for C5: a flow whose single (and hence final) event carries
internalInterrupted yields exactly one composite interrupt event, which
itself carries no internalInterrupted. -/
theorem C5_internal_interrupt_hidden_witness :
    internalInterruptedOf
      (CompositeInterrupt "deterministic transfer wrapper interrupted"
        (.mk []) (.plain 7)) = none ∧
    (handleFlowAgentEvents
      [AgentEvent.mk "A" none (some (.mk false none none (some (.plain 7)))) none]
      [] ["B"]).1 =
      [CompositeInterrupt "deterministic transfer wrapper interrupted"
        (.mk []) (.plain 7)] := by
  have h := C5_internal_interrupt_hidden
    [AgentEvent.mk "A" none (some (.mk false none none (some (.plain 7)))) none] [] ["B"]
  have h2 := h.2 _ (.plain 7) rfl rfl
  have h3 : (handleFlowAgentEvents
      [AgentEvent.mk "A" none (some (.mk false none none (some (.plain 7)))) none]
      [] ["B"]).1 =
      [CompositeInterrupt "deterministic transfer wrapper interrupted"
        (.mk []) (.plain 7)] := by
    rw [h2]
    rfl
  exact ⟨h.1 _ (h3 ▸ List.mem_cons_self _ _), h3⟩

/-- C6: the deterministic-transfer wrapper forwards every inner event in
order and appends the synthesized transfer events (per destination, an
assistant tool-call event then a tool event whose TransferToAgent action
names that destination, in declared order) exactly when the last forwarded
event did not carry Exit or Interrupted; in particular two plain assistant
events followed by the B and C pairs for destinations B then C. -/
theorem C6_forward_and_transfer :
    (∀ (events : List AgentEvent) (toAgentNames : List String),
      forwardEventsAndAppendTransfer events toAgentNames =
        events ++
          (if terminalStopsTransfer events.getLast? then []
           else sendTransferEvents toAgentNames)) ∧
    (∀ m1 m2 : Message,
      forwardEventsAndAppendTransfer
        [EventFromMessage m1 .assistant, EventFromMessage m2 .assistant] ["B", "C"] =
        [EventFromMessage m1 .assistant, EventFromMessage m2 .assistant] ++
          sendTransferEvents ["B", "C"]) ∧
    sendTransferEvents ["B", "C"] =
      [EventFromMessage (AssistantMessage "" [{ name := "transfer_to_agent", arguments := "B" }])
         .assistant,
       AgentEvent.mk ""
         (some { isStreaming := false,
                 message := { role := .tool,
                              content := "successfully transferred to agent [B]",
                              toolCalls := [], toolCallID := "",
                              toolName := "transfer_to_agent" },
                 role := .tool })
         (some (.mk false (some { destAgentName := "B" }) none none)) none,
       EventFromMessage (AssistantMessage "" [{ name := "transfer_to_agent", arguments := "C" }])
         .assistant,
       AgentEvent.mk ""
         (some { isStreaming := false,
                 message := { role := .tool,
                              content := "successfully transferred to agent [C]",
                              toolCalls := [], toolCallID := "",
                              toolName := "transfer_to_agent" },
                 role := .tool })
         (some (.mk false (some { destAgentName := "C" }) none none)) none] := by
  refine ⟨?_, ?_, rfl⟩
  · intro events toAgentNames
    rw [forwardEventsAndAppendTransfer, forwardLoop_eq]
    cases events.getLast? <;> rfl
  · intro m1 m2
    rfl

/-! ### Agent-as-tool history (C7) -/

example :
    getReactChatHistory
      [UserMessage "user query",
       AssistantMessage "" [{ name := "tool1", arguments := "arguments1" }],
       ToolMessage "tool result 1" "tool call id 1" "tool1",
       AssistantMessage "" [{ name := "tool2", arguments := "arguments2" }]]
      "MyAgent" "DestAgentName" =
    [UserMessage "user query",
     UserMessage "For context: [MyAgent] called tool: `tool1` with arguments: arguments1.",
     UserMessage "For context: [MyAgent] `tool1` tool returned result: tool result 1.",
     UserMessage "For context: [MyAgent] called tool: `transfer_to_agent` with arguments: DestAgentName.",
     UserMessage "For context: [MyAgent] `transfer_to_agent` tool returned result: successfully transferred to agent [DestAgentName]."] := by
  decide

/-- C7 counterexample: with a prior state holding exactly the two messages
the claim lists, the delivered history has three messages, not four: the last
state message (here the assistant reply) is always excluded as the pending
tool call, and the synthesized context lines wrap tool names in backticks,
unlike the claim's wording. -/
theorem C7_counterexample :
    getReactChatHistory [UserMessage "prev", AssistantMessage "resp" []]
      "react-agent" "test-agent" ≠
      [UserMessage "prev",
       UserMessage "For context: [react-agent] said: resp.",
       UserMessage "For context: [react-agent] called tool: transfer_to_agent with arguments: test-agent.",
       UserMessage "For context: [react-agent] transfer_to_agent tool returned result: successfully transferred to agent [test-agent]."] := by
  decide

/-- C7 amended: when the prior state holds the two history messages plus the
trailing assistant tool-call message (which is excluded), the inner agent
receives exactly four messages: the user message, the said-context line, and
the transfer_to_agent call and result lines, with the tool name in backticks. -/
theorem C7_agent_tool_history (prev resp toolCallMsg target : String) :
    getReactChatHistory
      [UserMessage prev, AssistantMessage resp [], AssistantMessage toolCallMsg []]
      "react-agent" target =
      [UserMessage prev,
       UserMessage ("For context: [react-agent] said: " ++ resp ++ "."),
       UserMessage ("For context: [react-agent] called tool: `transfer_to_agent` with arguments: "
         ++ target ++ "."),
       UserMessage ("For context: [react-agent] `transfer_to_agent` tool returned result: successfully transferred to agent ["
         ++ target ++ "].")] :=
  rfl

/-! ### Filesystem read tool (C9) -/

/-- C9: the read_file tool clamps its arguments before they reach the
backend: a negative Offset becomes 0 and a non-positive Limit becomes 200, so
Backend.Read always receives Offset at least 0 and Limit at least 1, while
non-negative Offset and positive Limit pass through unchanged. -/
theorem C9_read_file_clamp (input : readFileArgs) :
    0 ≤ (readFileToolRequest input).offset ∧
    1 ≤ (readFileToolRequest input).limit ∧
    (readFileToolRequest input).filePath = input.filePath ∧
    (0 ≤ input.offset → 0 < input.limit →
      readFileToolRequest input = ⟨input.filePath, input.offset, input.limit⟩) ∧
    (input.offset < 0 → (readFileToolRequest input).offset = 0) ∧
    (input.limit ≤ 0 → (readFileToolRequest input).limit = 200) := by
  unfold readFileToolRequest
  refine ⟨?_, ?_, rfl, ?_, ?_, ?_⟩
  · dsimp only
    split <;> omega
  · dsimp only
    split <;> omega
  · intro h1 h2
    dsimp only
    rw [if_neg (by omega), if_neg (by omega)]
  · intro h
    dsimp only
    rw [if_pos h]
  · intro h
    dsimp only
    rw [if_pos h]

/-- Witness for C9 at a pass-through input and a clamped input. -/
theorem C9_read_file_clamp_witness :
    readFileToolRequest ⟨"a", 3, 7⟩ = ⟨"a", 3, 7⟩ ∧
    (readFileToolRequest ⟨"b", -3, 0⟩).offset = 0 ∧
    (readFileToolRequest ⟨"b", -3, 0⟩).limit = 200 :=
  ⟨(C9_read_file_clamp ⟨"a", 3, 7⟩).2.2.2.1 (by decide) (by decide),
   (C9_read_file_clamp ⟨"b", -3, 0⟩).2.2.2.2.1 (by decide),
   (C9_read_file_clamp ⟨"b", -3, 0⟩).2.2.2.2.2 (by decide)⟩

/-! ### Large tool result offloading (C10) -/

/-- C10: under the default middleware configuration (token limit 20000, path
/large_tool_result/ followed by the call id, read-file tool name read_file),
a tool result whose token count is at most four times the token limit is
returned unchanged with no backend write; a larger one is written in full to
the generated path and replaced by the placeholder message carrying the call
id, the path, the read-file tool name and a sample of at most the first ten
lines, each truncated to at most 1000 runes. -/
theorem C10_large_tool_result (counter : Message → Nat) (result : String) (input : ToolInput) :
    (counter (ToolMessage result input.callID input.name) ≤ 20000 * 4 →
      handleResult (newToolResultOffloading ⟨0, none, "", some counter⟩) result input =
        (result, none)) ∧
    (20000 * 4 < counter (ToolMessage result input.callID input.name) →
      handleResult (newToolResultOffloading ⟨0, none, "", some counter⟩) result input =
        (tooLargeToolMessageRendered input.callID ("/large_tool_result/" ++ input.callID)
          "read_file" (formatToolMessage result),
         some ⟨"/large_tool_result/" ++ input.callID, result⟩)) ∧
    (sampleLines result).length ≤ 10 ∧
    (∀ l ∈ sampleLines result, l.length ≤ 1000) := by
  have h1 : (newToolResultOffloading ⟨0, none, "", some counter⟩).tokenLimit = 20000 := rfl
  have h2 : (newToolResultOffloading ⟨0, none, "", some counter⟩).counter = counter := rfl
  refine ⟨?_, ?_, ?_, ?_⟩
  · intro h
    rw [handleResult]
    rw [if_neg (by rw [h1, h2]; omega)]
  · intro h
    rw [handleResult]
    rw [if_pos (by rw [h1, h2]; omega)]
    rfl
  · rw [sampleLines, List.length_map, List.length_take]
    exact min_le_left _ _
  · intro l hl
    obtain ⟨x, _, rfl⟩ := List.mem_map.mp hl
    rw [truncLine]
    split
    · show ((x.toList.take 1000).asString).length ≤ 1000
      show (x.toList.take 1000).length ≤ 1000
      rw [List.length_take]
      exact min_le_left _ _
    · have hx : x.toList.length = x.length := rfl
      omega

/-- Witness for C10 with a small counter (result unchanged, no write) and a
large counter (placeholder message and full write). -/
theorem C10_large_tool_result_witness :
    handleResult (newToolResultOffloading ⟨0, none, "", some (fun _ => 0)⟩) "abc"
      ⟨"tool1", "id1", ""⟩ = ("abc", none) ∧
    handleResult (newToolResultOffloading ⟨0, none, "", some (fun _ => 100000)⟩) "abc"
      ⟨"tool1", "id1", ""⟩ =
      (tooLargeToolMessageRendered "id1" "/large_tool_result/id1" "read_file"
        (formatToolMessage "abc"),
       some ⟨"/large_tool_result/id1", "abc"⟩) ∧
    ("a" : String).length ≤ 1000 :=
  ⟨(C10_large_tool_result (fun _ => 0) "abc" ⟨"tool1", "id1", ""⟩).1 (by decide),
   (C10_large_tool_result (fun _ => 100000) "abc" ⟨"tool1", "id1", ""⟩).2.1 (by decide),
   (C10_large_tool_result (fun _ => 0) "a\nb" ⟨"tool1", "id1", ""⟩).2.2.2 "a" (by decide)⟩

end Eino
